import Mathlib

/-!
Shallow embedding of the pubmed baseline mirror pipeline.

This file embeds the data model and the operations of the mirror program
(`src/download.ts`, `src/downloader.ts`, `src/storage.ts`, `src/config.ts`)
as Lean definitions and proves properties of them.

Statuses are embedded as strings, exactly as in the TypeScript literal union
`'pending' | 'downloading' | 'downloaded' | 'failed' | 'verified'`
(`storage.ts`, type `DownloadTask`).
-/

namespace PubmedMirror

/-- From `config.ts`: `PATHS.baseUrl`. -/
def baseUrl : String := "https://ftp.ncbi.nlm.nih.gov/pubmed/baseline"

/-- From `config.ts`: `CONCURRENT_DOWNLOADS = 10`. -/
def CONCURRENT_DOWNLOADS : Nat := 10

/-- From `config.ts`: `CONCURRENT_VERIFICATIONS = 5`. -/
def CONCURRENT_VERIFICATIONS : Nat := 5

/-- From `config.ts`: `MAX_RETRIES = 3`. -/
def MAX_RETRIES : Nat := 3

/-- The `progress` record of a task: `{ bytes: number, total: number }`
(`storage.ts`, type `DownloadTask`). -/
structure Progress where
  bytes : Nat
  total : Nat
deriving DecidableEq, Repr

/-- From `storage.ts`, `DownloadTask`: `filename`, `url`, optional `md5`,
`status` (string literal union), `attempts`, optional `progress`. -/
structure DownloadTask where
  filename : String
  url : String
  md5 : Option String
  status : String
  attempts : Nat
  progress : Option Progress
deriving DecidableEq, Repr

/-- The five values of the TypeScript status union in `storage.ts`. -/
def statusValues : List String :=
  ["pending", "downloading", "downloaded", "failed", "verified"]

/-- From `download.ts`, `createTask`: a fresh task with `attempts = 0`,
`url = baseUrl + "/" + filename` and the given status (default `'pending'`
at the call sites). `md5` and `progress` start absent. -/
def createTask (filename : String) (status : String) : DownloadTask :=
  { filename := filename
    url := baseUrl ++ "/" ++ filename
    md5 := none
    status := status
    attempts := 0
    progress := none }

/-- From `downloader.ts` line 73: a download worker first sets
`task.status = 'downloading'`. -/
def beginDownload (t : DownloadTask) : DownloadTask :=
  { t with status := "downloading" }

/-- From `storage.ts`, `downloadFile`: sets `task.progress = { bytes: 0, total }`
and then adds each received chunk's length to `progress.bytes`.  The chunk
sizes of a successful transfer are the list argument. -/
def downloadFile (total : Nat) (chunks : List Nat) (t : DownloadTask) : DownloadTask :=
  chunks.foldl
    (fun acc c =>
      { acc with
        progress := some ⟨(acc.progress.map Progress.bytes).getD 0 + c, total⟩ })
    { t with progress := some ⟨0, total⟩ }

/-- From `downloader.ts` lines 81–82: on download success the worker sets
`task.status = 'downloaded'` (and pushes the task onto the verify queue).
`task.progress` is not touched on this path. -/
def downloadSuccess (t : DownloadTask) : DownloadTask :=
  { t with status := "downloaded" }

/-- From `downloader.ts` lines 85–95 (the `catch` block of a download worker):
`task.attempts++`; if `task.attempts < MAX_RETRIES` the task is pushed to
the BACK of the download queue (status untouched), else
`task.status = 'failed'`.  Returns the new download queue and the task's
final value. -/
def onDownloadFailure (dq : List DownloadTask) (t : DownloadTask) :
    List DownloadTask × DownloadTask :=
  let t1 := { t with attempts := t.attempts + 1 }
  if t1.attempts < MAX_RETRIES then
    (dq ++ [t1], t1)
  else
    let t2 := { t1 with status := "failed" }
    (dq, t2)

/-- Iterated download failures of one task: each round applies
`onDownloadFailure` unless the task has already reached `'failed'`
(a failed task is never requeued, so it sees no further attempts). -/
def failuresIter : Nat → DownloadTask → DownloadTask
  | 0, t => t
  | k + 1, t =>
    if t.status = "failed" then t
    else failuresIter k (onDownloadFailure [] t).2

/-- From `downloader.ts` lines 135–136: a verification worker first sets
`task.status = 'downloading'` (the status union has no separate verifying
value) and `task.progress = { bytes: 0, total: 100 }`. -/
def beginVerify (t : DownloadTask) : DownloadTask :=
  { t with status := "downloading", progress := some ⟨0, 100⟩ }

/-- From `downloader.ts` lines 133–185: one verification worker body.
`localHash` is the result of `computeFileHash` (`none` models the
`.catch` returning `null`), `remoteMd5` the result of `getMd5` likewise.
After the two phases (progress 50 then 75), a missing hash throws and the
`catch` sets `task.status = 'pending'` and unshifts the task to the FRONT
of the download queue; a present-but-different pair takes the same requeue
path; equal hashes set `'verified'`.  The `finally` deletes
`task.progress` on every path (the requeued object is the same object, so
the queued task ends with no progress).  Returns the new download queue
and the task's final value. -/
def verifyTask (localHash remoteMd5 : Option String)
    (dq : List DownloadTask) (t0 : DownloadTask) :
    List DownloadTask × DownloadTask :=
  let t1 := beginVerify t0
  let t2 := { t1 with progress := some ⟨50, 100⟩ }
  let t3 := { t2 with progress := some ⟨75, 100⟩ }
  match localHash, remoteMd5 with
  | some lh, some rm =>
    let t4 := { t3 with progress := some ⟨100, 100⟩ }
    if lh = rm then
      (dq, { t4 with status := "verified", progress := none })
    else
      let t5 := { t4 with status := "pending", progress := none }
      (t5 :: dq, t5)
  | _, _ =>
    let t5 := { t3 with status := "pending", progress := none }
    (t5 :: dq, t5)

/-- From `download.ts` `main`, lines 49–61: the reconciliation of the remote
listing with the local file set.  Remote-but-not-local files become
`'pending'` tasks, remote-and-local files become `'downloaded'` tasks;
missing files come first, as in the source. -/
def buildTasks (remoteFiles localFiles : List String) : List DownloadTask :=
  let missingFiles := remoteFiles.filter (fun f => !(localFiles.contains f))
  let existingFiles := remoteFiles.filter (fun f => localFiles.contains f)
  missingFiles.map (fun f => createTask f "pending")
    ++ existingFiles.map (fun f => createTask f "downloaded")

/-- The mutable scheduler state of the `Downloader` class
(`downloader.ts` lines 28–32): the two queues and the two in-flight sets
(`activeDownloads` / `activeVerifications`, here lists of the tasks whose
worker promise is pending). -/
structure SchedState where
  dq : List DownloadTask
  activeD : List DownloadTask
  vq : List DownloadTask
  activeV : List DownloadTask
deriving DecidableEq, Repr

/-- From `downloader.ts` constructor (lines 40–41): the download queue starts
as the `'pending'` tasks and the verify queue as the `'downloaded'`
tasks; nothing is in flight. -/
def initState (tasks : List DownloadTask) : SchedState :=
  { dq := tasks.filter (fun t => t.status == "pending")
    activeD := []
    vq := tasks.filter (fun t => t.status == "downloaded")
    activeV := [] }

/-- One atomic scheduler transition of the cooperative event loop in
`downloader.ts`.  Spawning a download (lines 67–75) is guarded by
`activeDownloads.size < CONCURRENT_DOWNLOADS`; spawning a verification
(lines 130–137) by `activeVerifications.size < CONCURRENT_VERIFICATIONS`.
A download finishing successfully runs lines 77–84, a download failing
runs the `catch` of lines 85–95 (`mid` records the transfer's progress
writes before the throw, `none` when it threw before setting progress);
a verification finishing runs lines 141–185 with the two hash oracle
results. -/
inductive SchedStep : SchedState → SchedState → Prop
  | spawnDownload (t : DownloadTask) (rest : List DownloadTask) (s : SchedState)
      (hq : s.dq = t :: rest)
      (hcap : s.activeD.length < CONCURRENT_DOWNLOADS) :
      SchedStep s { s with dq := rest, activeD := s.activeD ++ [beginDownload t] }
  | finishDownloadOk (l r : List DownloadTask) (t : DownloadTask)
      (total : Nat) (chunks : List Nat) (s : SchedState)
      (ha : s.activeD = l ++ t :: r) :
      SchedStep s { s with
        activeD := l ++ r
        vq := s.vq ++ [downloadSuccess (downloadFile total chunks t)] }
  | finishDownloadErr (l r : List DownloadTask) (t : DownloadTask)
      (mid : Option (Nat × List Nat)) (s : SchedState)
      (ha : s.activeD = l ++ t :: r) :
      SchedStep s { s with
        activeD := l ++ r
        dq := (onDownloadFailure s.dq
          (match mid with
           | some (total, chunks) => downloadFile total chunks t
           | none => t)).1 }
  | spawnVerify (t : DownloadTask) (rest : List DownloadTask) (s : SchedState)
      (hq : s.vq = t :: rest)
      (hcap : s.activeV.length < CONCURRENT_VERIFICATIONS) :
      SchedStep s { s with vq := rest, activeV := s.activeV ++ [beginVerify t] }
  | finishVerify (l r : List DownloadTask) (t : DownloadTask)
      (localHash remoteMd5 : Option String) (s : SchedState)
      (ha : s.activeV = l ++ t :: r) :
      SchedStep s { s with
        activeV := l ++ r
        dq := (verifyTask localHash remoteMd5 s.dq t).1 }

/-- Reachability along scheduler transitions. -/
def SchedReach : SchedState → SchedState → Prop :=
  Relation.ReflTransGen SchedStep

/-- All tasks currently held by the scheduler's queues and in-flight sets. -/
def allTasks (s : SchedState) : List DownloadTask :=
  s.dq ++ s.activeD ++ s.vq ++ s.activeV

/-- State of the cooperative pipeline in the deterministic schedule used
to study `start` (`downloader.ts` lines 200–221): the two queues plus the
tasks that have reached a terminal status (`'verified'` or `'failed'`). -/
structure PipeState where
  dq : List DownloadTask
  vq : List DownloadTask
  finished : List DownloadTask
deriving DecidableEq, Repr

/-- One cooperative step of the joint run of `processDownloads` and
`processVerifications`, in the schedule that always serves the download
queue first.  `dOk clock` tells whether the transfer at this step
succeeds (the Transfer Engine's outcome); `vres clock` gives the
verification oracle pair (local hash, remote md5).  A successful download
runs lines 73–84, a failed one the `catch` of lines 85–95, a
verification lines 133–185. -/
def pipeStep (dOk : Nat → Bool) (vres : Nat → Option String × Option String)
    (clock : Nat) (s : PipeState) : PipeState :=
  match s.dq with
  | t :: rest =>
    if dOk clock then
      { s with dq := rest
               vq := s.vq ++ [downloadSuccess (beginDownload t)] }
    else
      let res := onDownloadFailure rest (beginDownload t)
      if res.2.status = "failed" then
        { s with dq := res.1, finished := s.finished ++ [res.2] }
      else
        { s with dq := res.1 }
  | [] =>
    match s.vq with
    | t :: rest =>
      let oracle := vres clock
      let res := verifyTask oracle.1 oracle.2 s.dq t
      if res.2.status = "verified" then
        { s with vq := rest, finished := s.finished ++ [res.2] }
      else
        { s with dq := res.1, vq := rest }
    | [] => s

/-- One joint pass of both worker pools: step until both queues are empty
(the loop conditions of `processDownloads` line 66 and
`processVerifications` lines 116–121), with a fuel bound on the number of
cooperative steps. -/
def jointPass (dOk : Nat → Bool) (vres : Nat → Option String × Option String) :
    Nat → Nat → PipeState → PipeState
  | 0, _, s => s
  | fuel + 1, clock, s =>
    if s.dq.isEmpty && s.vq.isEmpty then s
    else jointPass dOk vres fuel (clock + 1) (pipeStep dOk vres clock s)

/-- The initial pipeline queues built from the task list
(`downloader.ts` constructor lines 40–41). -/
def pipeInit (tasks : List DownloadTask) : PipeState :=
  { dq := tasks.filter (fun t => t.status == "pending")
    vq := tasks.filter (fun t => t.status == "downloaded")
    finished := [] }

/-- From `downloader.ts` `start` (lines 200–221): run one joint pass of both
pools and, exactly when the download queue is non-empty afterwards, run
one more joint pass. -/
def startModel (dOk : Nat → Bool) (vres : Nat → Option String × Option String)
    (fuel : Nat) (tasks : List DownloadTask) : PipeState :=
  let s1 := jointPass dOk vres fuel 0 (pipeInit tasks)
  if s1.dq.isEmpty then s1 else jointPass dOk vres fuel fuel s1

/-- A JSON value, the exchange format of `JSON.stringify`/`JSON.parse`
in `saveProgress`/`loadProgress` (`storage.ts` lines 71–85).  The string
layer of the Node built-ins is their own contract (stringify and parse
are mutually inverse on this tree); the embedding works at the tree
level. -/
inductive Json where
  | str (s : String)
  | num (n : Nat)
  | obj (fields : List (String × Json))
  | arr (items : List Json)

/-- From `JSON.stringify` of one `DownloadTask` object: its defined fields in
declaration order; the optional `md5` and `progress` fields are omitted
when absent (stringify skips `undefined` properties). -/
def encodeTask (t : DownloadTask) : Json :=
  Json.obj
    ([("filename", Json.str t.filename), ("url", Json.str t.url)]
      ++ (match t.md5 with
          | some m => [("md5", Json.str m)]
          | none => [])
      ++ [("status", Json.str t.status), ("attempts", Json.num t.attempts)]
      ++ (match t.progress with
          | some p => [("progress",
              Json.obj [("bytes", Json.num p.bytes), ("total", Json.num p.total)])]
          | none => []))

/-- Reading one parsed JSON object back as a `DownloadTask`, the way
`loadProgress`'s result is consumed (field access on the parsed object;
absent `md5`/`progress` read as `undefined`). -/
def decodeTask (j : Json) : Option DownloadTask :=
  match j with
  | Json.obj fields =>
    let lookup := fun (k : String) => (fields.find? (fun kv => kv.1 == k)).map Prod.snd
    match lookup "filename", lookup "url", lookup "status", lookup "attempts" with
    | some (Json.str fn), some (Json.str u), some (Json.str st), some (Json.num a) =>
      let md5v : Option String :=
        match lookup "md5" with
        | some (Json.str m) => some m
        | _ => none
      let progv : Option Progress :=
        match lookup "progress" with
        | some (Json.obj pf) =>
          let plookup := fun (k : String) => (pf.find? (fun kv => kv.1 == k)).map Prod.snd
          match plookup "bytes", plookup "total" with
          | some (Json.num b), some (Json.num tot) => some ⟨b, tot⟩
          | _, _ => none
        | _ => none
      some { filename := fn, url := u, md5 := md5v, status := st,
             attempts := a, progress := progv }
    | _, _, _, _ => none
  | _ => none

/-- From `storage.ts` `saveProgress` (lines 71–73): serialize the whole task
list as a JSON array of task objects. -/
def saveProgress (tasks : List DownloadTask) : Json :=
  Json.arr (tasks.map encodeTask)

/-- From `storage.ts` `loadProgress` (lines 75–85): parse the snapshot back
into a task list. -/
def loadProgress (j : Json) : Option (List DownloadTask) :=
  match j with
  | Json.arr items => items.mapM decodeTask
  | _ => none

/-- The literal pieces of the file regex of `download.ts` line 19:
`href="`, `pubmed`, `.xml.gz`, and `.md5"`, as character lists. -/
def hrefChars : List Char := ['h', 'r', 'e', 'f', '=', '"']

def pubmedChars : List Char := ['p', 'u', 'b', 'm', 'e', 'd']

def xmlgzChars : List Char := ['.', 'x', 'm', 'l', '.', 'g', 'z']

def md5qChars : List Char := ['.', 'm', 'd', '5', '"']

/-- Consume an exact literal prefix; `none` when the input does not start
with it.  Building block of the regex scan in `getRemoteFileList`
(`download.ts` lines 18–23). -/
def matchLit : List Char → List Char → Option (List Char)
  | [], cs => some cs
  | _, [] => none
  | p :: ps, c :: cs => if c = p then matchLit ps cs else none

/-- Greedy `\d*`: split off the maximal digit prefix. -/
def takeDigits : List Char → List Char × List Char
  | [] => ([], [])
  | c :: cs =>
    if c.isDigit then
      let r := takeDigits cs
      (c :: r.1, r.2)
    else ([], c :: cs)

/-- Try the regex `href="(pubmed\d+n\d+\.xml\.gz)(?:\.md5)?"` at the head
of the input (`download.ts` line 19).  On a match, return the capture
group (the base filename, without any `.md5` suffix) and the input after
the whole match; the optional `.md5` group is greedy, with the regex
backtracking to the bare `"` when `.md5"` does not follow. -/
def tryCapture (cs : List Char) : Option (String × List Char) :=
  match matchLit hrefChars cs with
  | none => none
  | some r1 =>
    match matchLit pubmedChars r1 with
    | none => none
    | some r2 =>
      let p1 := takeDigits r2
      if p1.1.isEmpty then none
      else
        match p1.2 with
        | 'n' :: r4 =>
          let p2 := takeDigits r4
          if p2.1.isEmpty then none
          else
            match matchLit xmlgzChars p2.2 with
            | none => none
            | some r6 =>
              let cap := String.mk
                (pubmedChars ++ p1.1 ++ 'n' :: p2.1 ++ xmlgzChars)
              match matchLit md5qChars r6 with
              | some r7 => some (cap, r7)
              | none =>
                match r6 with
                | '"' :: r7 => some (cap, r7)
                | _ => none
        | _ => none

/-- The repeated `fileRegex.exec` loop of `download.ts` lines 20–23:
scan left to right, emitting each capture and resuming after the end of
the whole match.  `fuel` bounds the number of scan steps; every step
strictly shortens the input, so `input length + 1` is exact fuel. -/
def scanAux : Nat → List Char → List String
  | 0, _ => []
  | _ + 1, [] => []
  | fuel + 1, c :: rest =>
    match tryCapture (c :: rest) with
    | some capr => capr.1 :: scanAux fuel capr.2
    | none => scanAux fuel rest

/-- JS `Set` accumulation (`xmlFiles.add`): keep first occurrences in
insertion order. -/
def dedupe (l : List String) : List String :=
  l.foldl (fun acc f => if acc.contains f then acc else acc ++ [f]) []

/-- From `download.ts` `getRemoteFileList` (lines 11–26): extract the set of
base filenames matched by the file regex from the listing body. -/
def getRemoteFileList (text : String) : List String :=
  dedupe (scanAux (text.length + 1) text.toList)

/-- Checker for the bare filename pattern `pubmed\d+n\d+\.xml\.gz`
(anchored at both ends). -/
def patCheck (cs : List Char) : Bool :=
  match matchLit pubmedChars cs with
  | none => false
  | some r1 =>
    let p1 := takeDigits r1
    if p1.1.isEmpty then false
    else
      match p1.2 with
      | 'n' :: r3 =>
        let p2 := takeDigits r3
        if p2.1.isEmpty then false
        else
          match matchLit xmlgzChars p2.2 with
          | some [] => true
          | _ => false
      | _ => false

/-- A string matches the bare filename pattern. -/
def matchesPat (s : String) : Bool := patCheck s.toList

/-- A concrete listing body containing only an `.md5` sidecar entry. -/
def sidecarListing : String := "<a href=\"pubmed24n0001.xml.gz.md5\">sidecar</a>"

/-! ## Helper lemmas -/

lemma failuresIter_stopped (k : Nat) (t : DownloadTask) (h : t.status = "failed") :
    failuresIter k t = t := by
  cases k <;> simp [failuresIter, h]

lemma failuresIter_step (k : Nat) (t : DownloadTask) (h : ¬ t.status = "failed") :
    failuresIter (k + 1) t = failuresIter k (onDownloadFailure [] t).2 := by
  simp [failuresIter, h]

lemma onDownloadFailure_requeue (dq : List DownloadTask) (t : DownloadTask)
    (h : t.attempts + 1 < MAX_RETRIES) :
    onDownloadFailure dq t =
      (dq ++ [{ t with attempts := t.attempts + 1 }],
       { t with attempts := t.attempts + 1 }) := by
  simp [onDownloadFailure, h]

lemma onDownloadFailure_fail (dq : List DownloadTask) (t : DownloadTask)
    (h : ¬ t.attempts + 1 < MAX_RETRIES) :
    onDownloadFailure dq t =
      (dq, { t with attempts := t.attempts + 1, status := "failed" }) := by
  simp [onDownloadFailure, h]

lemma verifyTask_queue_cases (lh rm : Option String) (dq : List DownloadTask)
    (t : DownloadTask) :
    (verifyTask lh rm dq t).1 = dq ∨
    ((verifyTask lh rm dq t).1 = (verifyTask lh rm dq t).2 :: dq ∧
      ((verifyTask lh rm dq t).2).status = "pending") := by
  match lh, rm with
  | none, _ => right; simp [verifyTask, beginVerify]
  | some a, none => right; simp [verifyTask, beginVerify]
  | some a, some b =>
    by_cases hab : a = b
    · left; simp [verifyTask, beginVerify, hab]
    · right; simp [verifyTask, beginVerify, hab]

lemma onDownloadFailure_queue_mem (dq : List DownloadTask) (u x : DownloadTask)
    (hx : x ∈ (onDownloadFailure dq u).1) :
    x ∈ dq ∨ x = (onDownloadFailure dq u).2 := by
  by_cases h : u.attempts + 1 < MAX_RETRIES
  · rw [onDownloadFailure_requeue dq u h] at hx ⊢
    simpa using hx
  · rw [onDownloadFailure_fail dq u h] at hx
    exact Or.inl hx

lemma onDownloadFailure_status_cases (dq : List DownloadTask) (u : DownloadTask) :
    ((onDownloadFailure dq u).2).status = u.status ∨
    ((onDownloadFailure dq u).2).status = "failed" := by
  by_cases h : u.attempts + 1 < MAX_RETRIES
  · rw [onDownloadFailure_requeue dq u h]; left; rfl
  · rw [onDownloadFailure_fail dq u h]; right; rfl

lemma foldl_progress_status (total : Nat) (chunks : List Nat) (a : DownloadTask) :
    (List.foldl
      (fun acc c =>
        { acc with
          progress := some ⟨(acc.progress.map Progress.bytes).getD 0 + c, total⟩ })
      a chunks).status = a.status := by
  induction chunks generalizing a with
  | nil => rfl
  | cons c cs ih => simp only [List.foldl]; rw [ih]

lemma downloadFile_status (total : Nat) (chunks : List Nat) (t : DownloadTask) :
    (downloadFile total chunks t).status = t.status := by
  unfold downloadFile
  rw [foldl_progress_status]

/-! ## Theorems -/

/-- C1: the download worker's failure handler increments `attempts` by
exactly one; while the incremented count is below `MAX_RETRIES` the task
goes to the back of the download queue, otherwise its status becomes
`'failed'` (and the queue is untouched); starting from `attempts = 0`,
after any number of failed attempts `attempts ≤ MAX_RETRIES`, and the
status is `'failed'` exactly when at least `MAX_RETRIES` failures
happened, at which point `attempts = MAX_RETRIES` — i.e. a task turns
`'failed'` only after exactly `MAX_RETRIES` failed download attempts. -/
theorem download_retry_policy :
    (∀ (dq : List DownloadTask) (t : DownloadTask),
        ((onDownloadFailure dq t).2).attempts = t.attempts + 1) ∧
    (∀ (dq : List DownloadTask) (t : DownloadTask), t.attempts + 1 < MAX_RETRIES →
        (onDownloadFailure dq t).1 = dq ++ [(onDownloadFailure dq t).2] ∧
        ((onDownloadFailure dq t).2).status = t.status) ∧
    (∀ (dq : List DownloadTask) (t : DownloadTask), ¬ t.attempts + 1 < MAX_RETRIES →
        ((onDownloadFailure dq t).2).status = "failed" ∧
        (onDownloadFailure dq t).1 = dq) ∧
    (∀ (t : DownloadTask) (k : Nat), t.attempts = 0 → t.status ≠ "failed" →
        (failuresIter k t).attempts ≤ MAX_RETRIES ∧
        ((failuresIter k t).status = "failed" ↔ MAX_RETRIES ≤ k) ∧
        ((failuresIter k t).status = "failed" →
          (failuresIter k t).attempts = MAX_RETRIES)) := by
  refine ⟨?_, ?_, ?_, ?_⟩
  · intro dq t
    by_cases h : t.attempts + 1 < MAX_RETRIES
    · simp [onDownloadFailure_requeue dq t h]
    · simp [onDownloadFailure_fail dq t h]
  · intro dq t h
    simp [onDownloadFailure_requeue dq t h]
  · intro dq t h
    simp [onDownloadFailure_fail dq t h]
  · intro t k h0 hs
    have h1 : (onDownloadFailure [] t).2 = { t with attempts := 1 } := by
      have : t.attempts + 1 < MAX_RETRIES := by
        simp [h0, MAX_RETRIES]
      simp [onDownloadFailure_requeue [] t this, h0]
    have h2 : (onDownloadFailure [] { t with attempts := 1 }).2 =
        { t with attempts := 2 } := by
      have : ({ t with attempts := 1 } : DownloadTask).attempts + 1 < MAX_RETRIES := by
        simp [MAX_RETRIES]
      simp [onDownloadFailure_requeue [] _ this]
    have h3 : (onDownloadFailure [] { t with attempts := 2 }).2 =
        { t with attempts := 3, status := "failed" } := by
      have : ¬ ({ t with attempts := 2 } : DownloadTask).attempts + 1 < MAX_RETRIES := by
        simp [MAX_RETRIES]
      simp [onDownloadFailure_fail [] _ this]
    match k with
    | 0 =>
      refine ⟨by simp [failuresIter, h0, MAX_RETRIES], ?_, ?_⟩
      · simp [failuresIter, hs, MAX_RETRIES]
      · intro h; exact absurd h (by simp [failuresIter, hs])
    | 1 =>
      rw [failuresIter_step 0 t hs, h1]
      refine ⟨by simp [failuresIter, MAX_RETRIES], ?_, ?_⟩
      · simp [failuresIter, hs, MAX_RETRIES]
      · intro h; exact absurd h (by simp [failuresIter, hs])
    | 2 =>
      rw [failuresIter_step 1 t hs, h1,
        failuresIter_step 0 _ (by simpa using hs), h2]
      refine ⟨by simp [failuresIter, MAX_RETRIES], ?_, ?_⟩
      · simp [failuresIter, hs, MAX_RETRIES]
      · intro h; exact absurd h (by simp [failuresIter, hs])
    | n + 3 =>
      rw [failuresIter_step (n + 2) t hs, h1,
        failuresIter_step (n + 1) _ (by simpa using hs), h2,
        failuresIter_step n _ (by simpa using hs), h3,
        failuresIter_stopped n _ (by simp)]
      refine ⟨by simp [MAX_RETRIES], by simp [MAX_RETRIES], by simp [MAX_RETRIES]⟩

/-- Witness for C1 at a concrete task: three failed attempts turn a fresh
task `'failed'` with `attempts = MAX_RETRIES`. -/
theorem download_retry_policy_witness :
    (failuresIter 3 (createTask "pubmed24n0001.xml.gz" "pending")).status = "failed" ∧
    (failuresIter 3 (createTask "pubmed24n0001.xml.gz" "pending")).attempts = MAX_RETRIES := by
  have h := download_retry_policy.2.2.2 (createTask "pubmed24n0001.xml.gz" "pending") 3
    (by simp [createTask]) (by simp [createTask])
  exact ⟨h.2.1.mpr (by simp [MAX_RETRIES]), h.2.2 (h.2.1.mpr (by simp [MAX_RETRIES]))⟩

/-- C2: whenever verification fails — the local hash is missing, the
remote md5 is missing, or both are present but differ — the task ends
with status `'pending'`, is unshifted to the FRONT of the download queue
(ahead of everything already in it), and its `attempts` counter is
unchanged. -/
theorem verify_failure_requeue :
    ∀ (localHash remoteMd5 : Option String) (dq : List DownloadTask) (t : DownloadTask),
      (localHash = none ∨ remoteMd5 = none ∨
        (∃ a b, localHash = some a ∧ remoteMd5 = some b ∧ a ≠ b)) →
      ((verifyTask localHash remoteMd5 dq t).2).status = "pending" ∧
      (verifyTask localHash remoteMd5 dq t).1 =
        (verifyTask localHash remoteMd5 dq t).2 :: dq ∧
      ((verifyTask localHash remoteMd5 dq t).2).attempts = t.attempts := by
  intro localHash remoteMd5 dq t h
  match localHash, remoteMd5 with
  | none, _ => simp [verifyTask, beginVerify]
  | some a, none => simp [verifyTask, beginVerify]
  | some a, some b =>
    have hab : ¬ a = b := by
      rcases h with h | h | ⟨a', b', ha', hb', hne⟩
      · exact absurd h (by simp)
      · exact absurd h (by simp)
      · cases Option.some.inj ha'; cases Option.some.inj hb'; exact hne
    simp [verifyTask, beginVerify, hab]

/-- Witness for C2: a missing local hash bounces a concrete task to the
front of a non-empty queue as `'pending'` with `attempts` intact. -/
theorem verify_failure_requeue_witness :
    ((verifyTask none (some "0123") [createTask "pubmed24n0002.xml.gz" "pending"]
        (createTask "pubmed24n0001.xml.gz" "downloaded")).2).status = "pending" ∧
    (verifyTask none (some "0123") [createTask "pubmed24n0002.xml.gz" "pending"]
        (createTask "pubmed24n0001.xml.gz" "downloaded")).1 =
      (verifyTask none (some "0123") [createTask "pubmed24n0002.xml.gz" "pending"]
        (createTask "pubmed24n0001.xml.gz" "downloaded")).2 ::
        [createTask "pubmed24n0002.xml.gz" "pending"] ∧
    ((verifyTask none (some "0123") [createTask "pubmed24n0002.xml.gz" "pending"]
        (createTask "pubmed24n0001.xml.gz" "downloaded")).2).attempts =
      (createTask "pubmed24n0001.xml.gz" "downloaded").attempts :=
  verify_failure_requeue none (some "0123")
    [createTask "pubmed24n0002.xml.gz" "pending"]
    (createTask "pubmed24n0001.xml.gz" "downloaded") (Or.inl rfl)

/-- C9: a task requeued after a failed download attempt (still below the
retry cap) re-enters the download queue with status still
`'downloading'` — it is not reset to `'pending'`; and any task the
verification worker pushes back onto the download queue enters it with
status `'pending'`. -/
theorem retry_keeps_downloading_status :
    (∀ (dq : List DownloadTask) (t : DownloadTask),
        t.attempts + 1 < MAX_RETRIES →
        ((onDownloadFailure dq (beginDownload t)).2).status = "downloading" ∧
        (onDownloadFailure dq (beginDownload t)).1 =
          dq ++ [(onDownloadFailure dq (beginDownload t)).2]) ∧
    (∀ (localHash remoteMd5 : Option String) (dq : List DownloadTask) (t : DownloadTask),
        (verifyTask localHash remoteMd5 dq t).1 = dq ∨
        ((verifyTask localHash remoteMd5 dq t).1 =
            (verifyTask localHash remoteMd5 dq t).2 :: dq ∧
          ((verifyTask localHash remoteMd5 dq t).2).status = "pending")) := by
  constructor
  · intro dq t h
    have h' : (beginDownload t).attempts + 1 < MAX_RETRIES := by
      simpa [beginDownload] using h
    rw [onDownloadFailure_requeue dq (beginDownload t) h']
    simp [beginDownload]
  · intro localHash remoteMd5 dq t
    match localHash, remoteMd5 with
    | none, _ => right; simp [verifyTask, beginVerify]
    | some a, none => right; simp [verifyTask, beginVerify]
    | some a, some b =>
      by_cases hab : a = b
      · left; simp [verifyTask, beginVerify, hab]
      · right; simp [verifyTask, beginVerify, hab]

/-- Witness for C9: a concrete first-failure retry keeps status
`'downloading'` and goes to the back of the queue. -/
theorem retry_keeps_downloading_status_witness :
    ((onDownloadFailure [] (beginDownload (createTask "pubmed24n0001.xml.gz" "pending"))).2).status
        = "downloading" ∧
    (onDownloadFailure [] (beginDownload (createTask "pubmed24n0001.xml.gz" "pending"))).1 =
      [] ++ [(onDownloadFailure []
        (beginDownload (createTask "pubmed24n0001.xml.gz" "pending"))).2] :=
  retry_keeps_downloading_status.1 [] (createTask "pubmed24n0001.xml.gz" "pending")
    (by simp [createTask, MAX_RETRIES])

/-- C7: in every state the scheduler can reach from its initial state,
at most `CONCURRENT_DOWNLOADS` (10) downloads and at most
`CONCURRENT_VERIFICATIONS` (5) verifications are in flight: spawning is
guarded by the size checks on the two active maps. -/
theorem concurrency_caps :
    ∀ (tasks : List DownloadTask) (s : SchedState),
      SchedReach (initState tasks) s →
      s.activeD.length ≤ CONCURRENT_DOWNLOADS ∧
      s.activeV.length ≤ CONCURRENT_VERIFICATIONS := by
  intro tasks s h
  induction h with
  | refl => simp [initState]
  | tail hab hbc ih =>
    cases hbc with
    | spawnDownload t rest s hq hcap =>
      refine ⟨?_, ih.2⟩
      simpa using hcap
    | finishDownloadOk l r t total chunks s ha =>
      refine ⟨?_, ih.2⟩
      have := ih.1
      rw [ha] at this
      simp only [List.length_append, List.length_cons] at this ⊢
      omega
    | finishDownloadErr l r t mid s ha =>
      refine ⟨?_, ih.2⟩
      have := ih.1
      rw [ha] at this
      simp only [List.length_append, List.length_cons] at this ⊢
      omega
    | spawnVerify t rest s hq hcap =>
      refine ⟨ih.1, ?_⟩
      simpa using hcap
    | finishVerify l r t lh rm s ha =>
      refine ⟨ih.1, ?_⟩
      have := ih.2
      rw [ha] at this
      simp only [List.length_append, List.length_cons] at this ⊢
      omega

/-- Witness for C7 at the empty reachability path from a concrete
initial state. -/
theorem concurrency_caps_witness :
    (initState [createTask "pubmed24n0001.xml.gz" "pending"]).activeD.length ≤
        CONCURRENT_DOWNLOADS ∧
    (initState [createTask "pubmed24n0001.xml.gz" "pending"]).activeV.length ≤
        CONCURRENT_VERIFICATIONS :=
  concurrency_caps [createTask "pubmed24n0001.xml.gz" "pending"] _
    Relation.ReflTransGen.refl

lemma errStep_status (dq : List DownloadTask) (u x : DownloadTask)
    (hu : u.status ∈ statusValues)
    (hd : ∀ y ∈ dq, y.status ∈ statusValues)
    (hx : x ∈ (onDownloadFailure dq u).1) : x.status ∈ statusValues := by
  rcases onDownloadFailure_queue_mem dq u x hx with h | h
  · exact hd x h
  · rcases onDownloadFailure_status_cases dq u with hst | hst
    · rw [h, hst]; exact hu
    · rw [h, hst]; simp [statusValues]

lemma verifyStep_status (dq : List DownloadTask) (lh rm : Option String)
    (t x : DownloadTask)
    (hd : ∀ y ∈ dq, y.status ∈ statusValues)
    (hx : x ∈ (verifyTask lh rm dq t).1) : x.status ∈ statusValues := by
  rcases verifyTask_queue_cases lh rm dq t with hq | ⟨hq, hst⟩
  · rw [hq] at hx
    exact hd x hx
  · rw [hq] at hx
    rcases List.mem_cons.mp hx with hx' | hx'
    · rw [hx', hst]; simp [statusValues]
    · exact hd x hx'

lemma schedStep_status (a c : SchedState) (hstep : SchedStep a c)
    (ih : ∀ t ∈ allTasks a, t.status ∈ statusValues) :
    ∀ x ∈ allTasks c, x.status ∈ statusValues := by
  have hdq : ∀ y ∈ a.dq, y.status ∈ statusValues := by
    intro y hy; exact ih y (by simp [allTasks, hy])
  intro x hx
  cases hstep with
  | spawnDownload t rest sdrop hq hcap =>
    simp [allTasks] at hx
    rcases hx with hx | hx | hx | hx | hx
    · exact ih x (by simp [allTasks, hq, hx])
    · exact ih x (by simp [allTasks, hx])
    · rw [hx]; simp [beginDownload, statusValues]
    · exact ih x (by simp [allTasks, hx])
    · exact ih x (by simp [allTasks, hx])
  | finishDownloadOk l r t total chunks sdrop ha =>
    simp [allTasks] at hx
    rcases hx with hx | hx | hx | hx | hx | hx
    · exact ih x (by simp [allTasks, hx])
    · exact ih x (by simp [allTasks, ha, hx])
    · exact ih x (by simp [allTasks, ha, hx])
    · exact ih x (by simp [allTasks, hx])
    · rw [hx]; simp [downloadSuccess, statusValues]
    · exact ih x (by simp [allTasks, hx])
  | finishDownloadErr l r t mid sdrop ha =>
    have htstat : t.status ∈ statusValues := by
      exact ih t (by simp [allTasks, ha])
    simp [allTasks] at hx
    rcases hx with hx | hx | hx | hx | hx
    · cases mid with
      | some p =>
        cases p with
        | mk total chunks =>
          refine errStep_status a.dq (downloadFile total chunks t) x ?_ hdq ?_
          · rw [downloadFile_status]; exact htstat
          · exact hx
      | none => exact errStep_status a.dq t x htstat hdq hx
    · exact ih x (by simp [allTasks, ha, hx])
    · exact ih x (by simp [allTasks, ha, hx])
    · exact ih x (by simp [allTasks, hx])
    · exact ih x (by simp [allTasks, hx])
  | spawnVerify t rest sdrop hq hcap =>
    simp [allTasks] at hx
    rcases hx with hx | hx | hx | hx | hx
    · exact ih x (by simp [allTasks, hx])
    · exact ih x (by simp [allTasks, hx])
    · exact ih x (by simp [allTasks, hq, hx])
    · exact ih x (by simp [allTasks, hx])
    · rw [hx]; simp [beginVerify, statusValues]
  | finishVerify l r t lh rm sdrop ha =>
    simp [allTasks] at hx
    rcases hx with hx | hx | hx | hx | hx
    · exact verifyStep_status a.dq lh rm t x hdq hx
    · exact ih x (by simp [allTasks, hx])
    · exact ih x (by simp [allTasks, hx])
    · exact ih x (by simp [allTasks, ha, hx])
    · exact ih x (by simp [allTasks, ha, hx])

/-- C4, counterexample: when the verification worker pool takes a task
from the to-verify queue it sets the task's status to `'downloading'`,
not to a `'verifying'` value (the status union of `storage.ts` has no
such value). -/
theorem verify_begin_not_verifying :
    (beginVerify (createTask "pubmed24n0001.xml.gz" "downloaded")).status = "downloading" ∧
    (beginVerify (createTask "pubmed24n0001.xml.gz" "downloaded")).status ≠ "verifying" := by
  constructor
  · rfl
  · simp [beginVerify]

/-- C4, amended: every status the code ever assigns is one of the FIVE
values `pending`, `downloading`, `downloaded`, `failed`, `verified` (the
invariant holds in every reachable scheduler state), and when the
verification pool takes a task it sets its status to `'downloading'`
(reusing the download status) and initializes `progress = (0, 100)`. -/
theorem status_five_values_and_verify_begin :
    (∀ t : DownloadTask, (beginVerify t).status = "downloading" ∧
      (beginVerify t).progress = some ⟨0, 100⟩) ∧
    (∀ (tasks : List DownloadTask) (s : SchedState),
      SchedReach (initState tasks) s →
      ∀ t ∈ allTasks s, t.status ∈ statusValues) := by
  constructor
  · intro t; exact ⟨rfl, rfl⟩
  · intro tasks s h
    induction h with
    | refl =>
      intro x hx
      simp only [allTasks, initState, List.append_nil, List.nil_append,
        List.mem_append, List.mem_filter] at hx
      rcases hx with ⟨_, hx⟩ | ⟨_, hx⟩ <;>
        · rw [show x.status = _ from by simpa using hx]
          simp [statusValues]
    | tail hab hbc ih => exact schedStep_status _ _ hbc ih

/-- Witness for the amended C4: in the initial state of a concrete run
the sole task's status is one of the five values. -/
theorem status_five_values_witness :
    (createTask "pubmed24n0001.xml.gz" "pending").status ∈ statusValues :=
  status_five_values_and_verify_begin.2 [createTask "pubmed24n0001.xml.gz" "pending"] _
    Relation.ReflTransGen.refl (createTask "pubmed24n0001.xml.gz" "pending")
    (by simp [allTasks, initState, createTask])

/-- C5, counterexample: a task that has just finished downloading has
status `'downloaded'` and STILL carries the transfer's progress — the
download success path (lines 81–84) never clears `task.progress`, so
progress is not absent whenever the status is `'downloaded'`. -/
theorem progress_retained_after_download :
    (downloadSuccess (downloadFile 10 [4, 6]
        (beginDownload (createTask "pubmed24n0001.xml.gz" "pending")))).status
      = "downloaded" ∧
    (downloadSuccess (downloadFile 10 [4, 6]
        (beginDownload (createTask "pubmed24n0001.xml.gz" "pending")))).progress
      = some ⟨10, 10⟩ := by
  exact ⟨rfl, rfl⟩

/-- C5, amended: `progress` is deleted in the verification worker's
`finally` on every verification exit (the verified task has no progress,
and neither does a task bounced back to the queue), but it is NOT
cleared on exit from the download phase: the download success handler
and the download failure handler both leave `progress` untouched. -/
theorem progress_cleared_only_by_verification :
    (∀ (lh rm : Option String) (dq : List DownloadTask) (t : DownloadTask),
        ((verifyTask lh rm dq t).2).progress = none) ∧
    (∀ t : DownloadTask, (downloadSuccess t).progress = t.progress) ∧
    (∀ (dq : List DownloadTask) (t : DownloadTask),
        ((onDownloadFailure dq t).2).progress = t.progress) := by
  refine ⟨?_, ?_, ?_⟩
  · intro lh rm dq t
    match lh, rm with
    | none, _ => simp [verifyTask, beginVerify]
    | some a, none => simp [verifyTask, beginVerify]
    | some a, some b =>
      by_cases hab : a = b <;> simp [verifyTask, beginVerify, hab]
  · intro t; rfl
  · intro dq t
    by_cases h : t.attempts + 1 < MAX_RETRIES
    · rw [onDownloadFailure_requeue dq t h]
    · rw [onDownloadFailure_fail dq t h]

/-- C6: reconciliation maps every remote-but-not-local filename to a
`'pending'` task and every remote-and-local filename to a `'downloaded'`
task, and every created task has `attempts = 0` and
`url = baseUrl ++ "/" ++ filename`. -/
theorem reconciliation_initial_tasks :
    ∀ (remoteFiles localFiles : List String),
      (∀ t ∈ buildTasks remoteFiles localFiles,
          t.attempts = 0 ∧ t.url = baseUrl ++ "/" ++ t.filename) ∧
      (∀ f ∈ remoteFiles, f ∉ localFiles →
          createTask f "pending" ∈ buildTasks remoteFiles localFiles) ∧
      (∀ f ∈ remoteFiles, f ∈ localFiles →
          createTask f "downloaded" ∈ buildTasks remoteFiles localFiles) ∧
      (∀ t ∈ buildTasks remoteFiles localFiles,
          t.filename ∈ remoteFiles ∧
          t.status = (if t.filename ∈ localFiles then "downloaded" else "pending")) := by
  intro remoteFiles localFiles
  refine ⟨?_, ?_, ?_, ?_⟩
  · intro t ht
    simp only [buildTasks, List.mem_append, List.mem_map, List.mem_filter] at ht
    rcases ht with ⟨f, _, rfl⟩ | ⟨f, _, rfl⟩ <;> exact ⟨rfl, rfl⟩
  · intro f hf hnl
    simp only [buildTasks, List.mem_append, List.mem_map]
    left
    exact ⟨f, by simp [List.mem_filter, hf, hnl], rfl⟩
  · intro f hf hl
    simp only [buildTasks, List.mem_append, List.mem_map]
    right
    exact ⟨f, by simp [List.mem_filter, hf, hl], rfl⟩
  · intro t ht
    simp only [buildTasks, List.mem_append, List.mem_map, List.mem_filter] at ht
    rcases ht with ⟨f, ⟨hfr, hfl⟩, rfl⟩ | ⟨f, ⟨hfr, hfl⟩, rfl⟩
    · have hnl : f ∉ localFiles := by simpa [List.contains] using hfl
      exact ⟨hfr, by simp [createTask, hnl]⟩
    · have hl : f ∈ localFiles := by simpa [List.contains] using hfl
      exact ⟨hfr, by simp [createTask, hl]⟩

/-- Witness for C6 at a concrete reconciliation: a remote-only file
becomes a `'pending'` task of the built list. -/
theorem reconciliation_initial_tasks_witness :
    createTask "pubmed24n0001.xml.gz" "pending" ∈
      buildTasks ["pubmed24n0001.xml.gz", "pubmed24n0002.xml.gz"] ["pubmed24n0002.xml.gz"] :=
  (reconciliation_initial_tasks ["pubmed24n0001.xml.gz", "pubmed24n0002.xml.gz"]
      ["pubmed24n0002.xml.gz"]).2.1 "pubmed24n0001.xml.gz" (by simp) (by simp)

lemma decodeTask_encodeTask (t : DownloadTask) : decodeTask (encodeTask t) = some t := by
  rcases t with ⟨fn, u, md5, st, att, prog⟩
  rcases md5 with _ | m <;> rcases prog with _ | p <;>
    simp [encodeTask, decodeTask]

/-- C8: saving a snapshot and loading it back reproduces the task list
exactly — in particular the same filenames, statuses and attempts counts
in the same order (every field round-trips, including `md5` and
`progress` when present). -/
theorem save_load_round_trip :
    ∀ tasks : List DownloadTask,
      loadProgress (saveProgress tasks) = some tasks := by
  intro tasks
  simp only [saveProgress, loadProgress]
  induction tasks with
  | nil => rfl
  | cons t ts ih =>
    simp only [List.map_cons, List.mapM_cons, decodeTask_encodeTask,
      Option.bind_eq_bind, Option.some_bind, ih]
    rfl

lemma pipeStep_finished_const (clock : Nat) (s : PipeState) :
    (pipeStep (fun _ => true) (fun _ => (some "a", some "b")) clock s).finished
      = s.finished := by
  rcases hdq : s.dq with _ | ⟨t, rest⟩
  · rcases hvq : s.vq with _ | ⟨t, rest⟩
    · simp [pipeStep, hdq, hvq]
    · simp [pipeStep, hdq, hvq, verifyTask, beginVerify]
  · simp [pipeStep, hdq]

lemma jointPass_finished_const (fuel clock : Nat) (s : PipeState) :
    (jointPass (fun _ => true) (fun _ => (some "a", some "b")) fuel clock s).finished
      = s.finished := by
  induction fuel generalizing clock s with
  | zero => rfl
  | succ n ih =>
    rw [jointPass]
    by_cases h : s.dq.isEmpty && s.vq.isEmpty
    · simp [h]
    · simp only [h, if_false, Bool.false_eq_true]
      rw [ih, pipeStep_finished_const]

/-- C3, counterexample: one task whose verification always fails (the
remote hash never matches) is requeued during the first joint pass of
`start`, yet after the second joint pass (which does run here) it has
reached no terminal state: nothing is finished and the task is still
circulating with status `'downloaded'`. -/
theorem start_two_pass_insufficient :
    (startModel (fun _ => true) (fun _ => (some "a", some "b")) 21
        [createTask "pubmed24n0001.xml.gz" "downloaded"]).finished = [] ∧
    (startModel (fun _ => true) (fun _ => (some "a", some "b")) 21
        [createTask "pubmed24n0001.xml.gz" "downloaded"]).vq.map DownloadTask.status
      = ["downloaded"] := by
  exact ⟨rfl, rfl⟩

/-- C3, amended: `start` structurally runs at most two joint passes and
runs the second exactly when the download queue is non-empty after the
first; but a task whose verification persistently fails never reaches a
terminal state — for EVERY step bound, the run of `start` on one such
task finishes nothing (verification failures do not increment `attempts`,
so such a task is requeued for ever rather than exhausting retries). -/
theorem start_two_passes_and_nonconvergence :
    (∀ (dOk : Nat → Bool) (vres : Nat → Option String × Option String)
        (fuel : Nat) (tasks : List DownloadTask),
      startModel dOk vres fuel tasks =
        (if (jointPass dOk vres fuel 0 (pipeInit tasks)).dq.isEmpty then
          jointPass dOk vres fuel 0 (pipeInit tasks)
        else
          jointPass dOk vres fuel fuel (jointPass dOk vres fuel 0 (pipeInit tasks)))) ∧
    (∀ fuel : Nat,
      (startModel (fun _ => true) (fun _ => (some "a", some "b")) fuel
        [createTask "pubmed24n0001.xml.gz" "downloaded"]).finished = []) := by
  constructor
  · intro dOk vres fuel tasks
    rfl
  · intro fuel
    rw [startModel]
    by_cases h :
        (jointPass (fun _ => true) (fun _ => (some "a", some "b")) fuel 0
          (pipeInit [createTask "pubmed24n0001.xml.gz" "downloaded"])).dq.isEmpty
    · simp only [h, if_true]
      rw [jointPass_finished_const]
      rfl
    · simp only [h, if_false, Bool.false_eq_true]
      rw [jointPass_finished_const, jointPass_finished_const]
      rfl



lemma matchLit_append (p rest : List Char) : matchLit p (p ++ rest) = some rest := by
  induction p with
  | nil => simp [matchLit]
  | cons c cs ih => simp [matchLit, ih]

lemma matchLit_sound (p : List Char) :
    ∀ cs r, matchLit p cs = some r → cs = p ++ r := by
  induction p with
  | nil =>
    intro cs r h
    simp [matchLit] at h
    simp [h]
  | cons c cs ih =>
    intro ds r h
    match ds with
    | [] => exact absurd h (by simp [matchLit])
    | d :: ds' =>
      rw [matchLit] at h
      by_cases hdc : d = c
      · rw [if_pos hdc] at h
        rw [hdc, List.cons_append, ih ds' r h]
      · rw [if_neg hdc] at h
        exact absurd h (by simp)

lemma takeDigits_fst_digits :
    ∀ cs : List Char, ∀ c ∈ (takeDigits cs).1, c.isDigit = true := by
  intro cs
  induction cs with
  | nil => simp [takeDigits]
  | cons x xs ih =>
    by_cases hx : x.isDigit
    · simp only [takeDigits, hx, if_true]
      intro c hc
      rcases List.mem_cons.mp hc with h | h
      · rw [h]; exact hx
      · exact ih c h
    · simp [takeDigits, hx]

lemma takeDigits_sound (cs : List Char) :
    cs = (takeDigits cs).1 ++ (takeDigits cs).2 := by
  induction cs with
  | nil => rfl
  | cons x xs ih =>
    by_cases hx : x.isDigit
    · simp only [takeDigits, hx, if_true]
      exact congrArg (x :: ·) ih
    · simp [takeDigits, hx]

lemma takeDigits_exact (d : List Char) (hd : ∀ c ∈ d, c.isDigit = true)
    (c' : Char) (hc : c'.isDigit = false) (rest : List Char) :
    takeDigits (d ++ c' :: rest) = (d, c' :: rest) := by
  induction d with
  | nil => simp [takeDigits, hc]
  | cons x xs ih =>
    have hx : x.isDigit = true := hd x (by simp)
    have ihx := ih (fun c h => hd c (by simp [h]))
    simp [takeDigits, hx, ihx]

lemma isEmpty_false_of_ne_nil (l : List Char) (h : l ≠ []) : l.isEmpty = false := by
  cases l with
  | nil => exact absurd rfl h
  | cons x xs => rfl

lemma patCheck_build (d1 d2 : List Char)
    (h1 : d1 ≠ []) (hd1 : ∀ c ∈ d1, c.isDigit = true)
    (h2 : d2 ≠ []) (hd2 : ∀ c ∈ d2, c.isDigit = true) :
    patCheck (pubmedChars ++ d1 ++ 'n' :: d2 ++ xmlgzChars) = true := by
  have e1 : takeDigits (d1 ++ ('n' :: (d2 ++ xmlgzChars))) = (d1, 'n' :: (d2 ++ xmlgzChars)) :=
    takeDigits_exact d1 hd1 'n' (by decide) _
  have e2 : takeDigits (d2 ++ xmlgzChars) = (d2, xmlgzChars) :=
    takeDigits_exact d2 hd2 '.' (by decide) ['x', 'm', 'l', '.', 'g', 'z']
  have e3 : matchLit xmlgzChars xmlgzChars = some [] := by
    simpa using matchLit_append xmlgzChars []
  rw [patCheck]
  simp only [List.append_assoc, List.cons_append]
  rw [matchLit_append]
  simp only [e1, e2, e3, isEmpty_false_of_ne_nil d1 h1, isEmpty_false_of_ne_nil d2 h2]
  simp

lemma tryCapture_matches (cs : List Char) (cap : String) (rest : List Char)
    (h : tryCapture cs = some (cap, rest)) : matchesPat cap = true := by
  simp only [tryCapture] at h
  split at h
  next heq1 => exact Option.noConfusion h
  next r1 heq1 =>
    split at h
    next => exact Option.noConfusion h
    next r2 heq2 =>
      split at h
      next => exact Option.noConfusion h
      next hd1 =>
        split at h
        next r4 heq3 =>
          split at h
          next => exact Option.noConfusion h
          next hd2 =>
            split at h
            next => exact Option.noConfusion h
            next r6 heq4 =>
              have hne1 : (takeDigits r2).1 ≠ [] := by
                intro hnil; exact hd1 (by rw [hnil]; rfl)
              have hne2 : (takeDigits r4).1 ≠ [] := by
                intro hnil; exact hd2 (by rw [hnil]; rfl)
              have hgoal : matchesPat (String.mk
                  (pubmedChars ++ (takeDigits r2).1 ++ 'n' :: (takeDigits r4).1
                    ++ xmlgzChars)) = true := by
                rw [matchesPat]
                exact patCheck_build (takeDigits r2).1 (takeDigits r4).1
                  hne1 (takeDigits_fst_digits r2) hne2 (takeDigits_fst_digits r4)
              split at h
              next r7 heq5 =>
                injection h with h'
                injection h' with hcap hrest
                rw [← hcap]
                exact hgoal
              next heq5 =>
                split at h
                next r7 =>
                  injection h with h'
                  injection h' with hcap hrest
                  rw [← hcap]
                  exact hgoal
                next hne =>
                  exact Option.noConfusion h
        next hne => exact Option.noConfusion h


lemma patCheck_sound (cs : List Char) (h : patCheck cs = true) :
    ∃ d1 d2, cs = pubmedChars ++ (d1 ++ ('n' :: (d2 ++ xmlgzChars))) := by
  simp only [patCheck] at h
  split at h
  next => exact absurd h (by simp)
  next r1 heq1 =>
    split at h
    next => exact absurd h (by simp)
    next hd1 =>
      split at h
      next r3 heq3 =>
        split at h
        next => exact absurd h (by simp)
        next hd2 =>
          split at h
          next heq4 =>
            have hcs : cs = pubmedChars ++ r1 := matchLit_sound _ _ _ heq1
            have hr1 : r1 = (takeDigits r1).1 ++ (takeDigits r1).2 := takeDigits_sound r1
            have hr3 : r3 = (takeDigits r3).1 ++ (takeDigits r3).2 := takeDigits_sound r3
            have hr4 : (takeDigits r3).2 = xmlgzChars ++ [] := matchLit_sound _ _ _ heq4
            refine ⟨(takeDigits r1).1, (takeDigits r3).1, ?_⟩
            conv_lhs => rw [hcs, hr1, heq3, hr3, hr4]
            simp
          next => exact absurd h (by simp)
      next => exact absurd h (by simp)

lemma patCheck_last (cs : List Char) (h : patCheck cs = true) :
    cs.getLast? = some 'z' := by
  obtain ⟨d1, d2, rfl⟩ := patCheck_sound cs h
  have hsplit : pubmedChars ++ (d1 ++ 'n' :: (d2 ++ xmlgzChars)) =
      (pubmedChars ++ d1 ++ 'n' :: d2 ++ ['.', 'x', 'm', 'l', '.', 'g']) ++ ['z'] := by
    simp [xmlgzChars, List.append_assoc, List.cons_append, List.nil_append]
  rw [hsplit, List.getLast?_concat]

lemma matchesPat_ne_md5 (f : String) (h : matchesPat f = true) (g : String) :
    f ≠ g ++ ".md5" := by
  intro heq
  rw [matchesPat] at h
  have hz : f.toList.getLast? = some 'z' := patCheck_last f.toList h
  rw [heq] at hz
  have : (g ++ ".md5").toList = g.data ++ ['.', 'm', 'd', '5'] := by
    simp [String.toList]
  rw [this] at hz
  simp at hz

lemma dedupe_go_nodup (l acc : List String) (hacc : acc.Nodup) :
    (l.foldl (fun acc f => if acc.contains f then acc else acc ++ [f]) acc).Nodup := by
  induction l generalizing acc with
  | nil => simpa using hacc
  | cons x xs ih =>
    simp only [List.foldl_cons]
    by_cases hx : acc.contains x
    · rw [if_pos hx]; exact ih acc hacc
    · rw [if_neg hx]
      refine ih _ ?_
      have hxmem : x ∉ acc := by simpa [List.contains] using hx
      rw [List.nodup_append]
      exact ⟨hacc, List.nodup_singleton x,
        fun y hy hy1 => hxmem ((List.mem_singleton.mp hy1) ▸ hy)⟩

lemma dedupe_nodup (l : List String) : (dedupe l).Nodup :=
  dedupe_go_nodup l [] List.nodup_nil

lemma dedupe_go_subset (l : List String) :
    ∀ acc, ∀ x ∈ l.foldl (fun acc f => if acc.contains f then acc else acc ++ [f]) acc,
      x ∈ acc ∨ x ∈ l := by
  induction l with
  | nil => intro acc x hx; exact Or.inl (by simpa using hx)
  | cons y ys ih =>
    intro acc x hx
    simp only [List.foldl_cons] at hx
    by_cases hy : acc.contains y
    · rw [if_pos hy] at hx
      rcases ih acc x hx with h | h
      · exact Or.inl h
      · exact Or.inr (by simp [h])
    · rw [if_neg hy] at hx
      rcases ih (acc ++ [y]) x hx with h | h
      · rcases List.mem_append.mp h with h | h
        · exact Or.inl h
        · exact Or.inr (by simp [List.mem_singleton.mp h])
      · exact Or.inr (by simp [h])

lemma dedupe_subset (l : List String) : ∀ x ∈ dedupe l, x ∈ l := by
  intro x hx
  rcases dedupe_go_subset l [] x hx with h | h
  · simp at h
  · exact h

lemma scanAux_matches :
    ∀ (fuel : Nat) (cs : List Char), ∀ cap ∈ scanAux fuel cs, matchesPat cap = true := by
  intro fuel
  induction fuel with
  | zero => intro cs cap hcap; simp [scanAux] at hcap
  | succ n ih =>
    intro cs cap hcap
    match cs with
    | [] => simp [scanAux] at hcap
    | c :: rest =>
      rw [scanAux] at hcap
      cases htc : tryCapture (c :: rest) with
      | some capr =>
        rw [htc] at hcap
        rcases List.mem_cons.mp hcap with hcap | hcap
        · rw [hcap]
          exact tryCapture_matches (c :: rest) capr.1 capr.2 (by rw [htc])
        · exact ih capr.2 cap hcap
      | none =>
        rw [htc] at hcap
        exact ih rest cap hcap

lemma getRemoteFileList_matches (text : String) :
    ∀ f ∈ getRemoteFileList text, matchesPat f = true := by
  intro f hf
  exact scanAux_matches _ _ f (dedupe_subset _ f hf)

lemma buildTasks_map_filename (remote localFiles : List String) :
    (buildTasks remote localFiles).map DownloadTask.filename =
      remote.filter (fun f => !(localFiles.contains f))
        ++ remote.filter (fun f => localFiles.contains f) := by
  simp only [buildTasks, List.map_append, List.map_map]
  have h1 : (DownloadTask.filename ∘ fun f => createTask f "pending") = id := by
    funext f; rfl
  have h2 : (DownloadTask.filename ∘ fun f => createTask f "downloaded") = id := by
    funext f; rfl
  rw [h1, h2, List.map_id, List.map_id]

lemma buildTasks_filenames_nodup (remote localFiles : List String) (h : remote.Nodup) :
    ((buildTasks remote localFiles).map DownloadTask.filename).Nodup := by
  rw [buildTasks_map_filename, List.nodup_append]
  refine ⟨h.filter _, h.filter _, ?_⟩
  intro x hx1 hx2
  have h1 := (List.mem_filter.mp hx1).2
  have h2 := (List.mem_filter.mp hx2).2
  rw [h2] at h1
  exact absurd h1 (by simp)



/-- C10: the remote listing extraction yields a duplicate-free set whose
every element matches the fixed pattern `pubmed\d+n\d+\.xml\.gz`; an
`.md5` sidecar entry contributes only the base filename (no extracted
name ever ends in `.md5`), so no task is created for a sidecar and no
filename yields more than one task; concretely, a listing holding only a
sidecar entry extracts exactly the base filename. -/
theorem remote_listing_extraction :
    (∀ text : String,
      (getRemoteFileList text).Nodup ∧
      (∀ f ∈ getRemoteFileList text,
        matchesPat f = true ∧ ∀ g : String, f ≠ g ++ ".md5") ∧
      (∀ localFiles : List String,
        ((buildTasks (getRemoteFileList text) localFiles).map
          DownloadTask.filename).Nodup)) ∧
    getRemoteFileList sidecarListing = ["pubmed24n0001.xml.gz"] := by
  constructor
  · intro text
    refine ⟨dedupe_nodup _, ?_, ?_⟩
    · intro f hf
      have hm := getRemoteFileList_matches text f hf
      exact ⟨hm, fun g => matchesPat_ne_md5 f hm g⟩
    · intro localFiles
      exact buildTasks_filenames_nodup _ _ (dedupe_nodup _)
  · rfl

/-- Witness for C10: the name extracted from the concrete sidecar-only
listing matches the pattern and is not an `.md5` name. -/
theorem remote_listing_extraction_witness :
    matchesPat "pubmed24n0001.xml.gz" = true ∧
    ∀ g : String, "pubmed24n0001.xml.gz" ≠ g ++ ".md5" :=
  (remote_listing_extraction.1 sidecarListing).2.1 "pubmed24n0001.xml.gz"
    (by rw [remote_listing_extraction.2]; exact List.mem_singleton.mpr rfl)

end PubmedMirror
